import Mathlib

/-!
Verification of the Project Recall memory orchestrator
(`src/services/orchestrator/main.py`).

Texts handled by the signal-detection core (transcripts, trigger keywords,
extracted excerpts) are modelled as `List Char`; Python's per-character
`str.lower` is modelled by `Char.toLower`, `str.strip` by dropping
whitespace from both ends, `str.find` by the first matching offset and the
`in` operator by a substring test.  JSON payloads sent to the Mem0 backend
are modelled by the inductive `JVal`; Python `dict` literals and `**`
splicing are modelled by association lists updated with Python's
key-replacement semantics.  The async HTTP gateway is modelled by passing
the backend's per-call outcomes explicitly: `session_end` consumes a
function from call index to `Except` outcome, so aborted workflows and
attempted-call traces are observable.
-/

namespace Recall

/-- Texts are sequences of characters, as Python strings are. -/
abbrev Str := List Char

/-- Python `str.lower()`, applied per character. -/
def lowerL (s : Str) : Str := s.map Char.toLower

/-- The whitespace test used by Python `str.strip()`. -/
def wsp (c : Char) : Bool := c.isWhitespace

/-- Python `str.strip()`: remove whitespace from both ends. -/
def stripL (s : Str) : Str :=
  ((s.dropWhile wsp).reverse.dropWhile wsp).reverse

/-- Python's `needle in hay` substring containment test. -/
def containsSub (hay needle : Str) : Bool :=
  (List.range (hay.length + 1)).any (fun i => needle.isPrefixOf (hay.drop i))

/-- Python's `hay.find(needle)`: index of the first occurrence, `none` for `-1`. -/
def strFind (hay needle : Str) : Option Nat :=
  (List.range (hay.length + 1)).find? (fun i => needle.isPrefixOf (hay.drop i))

/-- `needle` occurs case-insensitively as a substring of `hay`. -/
def occursCI (needle hay : Str) : Bool :=
  containsSub (lowerL hay) (lowerL needle)

/-- `detect_signals` from `main.py`: for each configured keyword (in
configuration order), test `keyword.strip().lower() in text.lower()` and
collect `keyword.strip()` on a hit. -/
def detect_signals (keywords : List Str) (text : Str) : List Str :=
  match keywords with
  | [] => []
  | kw :: rest =>
    if containsSub (lowerL text) (lowerL (stripL kw))
    then stripL kw :: detect_signals rest text
    else detect_signals rest text

/-- `extract_signal_context` from `main.py`: find the first case-insensitive
occurrence of `signal`, fall back to `text[:window]` when absent, otherwise
slice `text[max(0, pos - window//2) : min(len(text), pos + len(signal) + window//2)]`
and strip surrounding whitespace. -/
def extract_signal_context (text signal : Str) (window : Nat) : Str :=
  match strFind (lowerL text) (lowerL signal) with
  | none => text.take window
  | some pos =>
    let start := pos - window / 2
    let stop := min text.length (pos + signal.length + window / 2)
    stripL ((text.drop start).take (stop - start))

/-- JSON-like values appearing in request payloads and backend responses. -/
inductive JVal where
  | str : String → JVal
  | num : Int → JVal
  | bool : Bool → JVal
  | arr : List JVal → JVal
  | obj : List (String × JVal) → JVal

/-- A JSON object, as an insertion-ordered association list. -/
abbrev JObj := List (String × JVal)

/-- Python `d[k]` lookup (first entry with the key; keys stay unique under
`dictSet`). -/
def dictGet (d : JObj) (k : String) : Option JVal :=
  (d.find? (fun p => p.1 == k)).map (fun p => p.2)

/-- Python `d[k] = v`: replace the value in place if the key is present,
otherwise append the binding. -/
def dictSet (d : JObj) (kv : String × JVal) : JObj :=
  if d.any (fun p => p.1 == kv.1)
  then d.map (fun p => if p.1 == kv.1 then kv else p)
  else d ++ [kv]

/-- The value the last binding of `k` in `m` carries, if any. -/
def lookupLast (m : JObj) (k : String) : Option JVal :=
  (m.reverse.find? (fun p => p.1 == k)).map (fun p => p.2)

/-- The metadata object built by `mem0_add`:
`{"project_id": project_id, "captured_at": now, **(metadata or {})}`.
The caller-supplied entries are spliced last, so they override the two
gateway-injected entries on key collision. -/
def mem0_add_metadata (project_id now : String) (metadata : JObj) : JObj :=
  metadata.foldl dictSet [("project_id", JVal.str project_id), ("captured_at", JVal.str now)]

/-- The outbound payload built by `mem0_add`:
`{"messages": [{"role": "user", "content": content}], "user_id": user_id, "metadata": {...}}`. -/
def mem0_add_payload (content user_id project_id now : String) (metadata : JObj) : JObj :=
  [("messages", JVal.arr [JVal.obj [("role", JVal.str "user"), ("content", JVal.str content)]]),
   ("user_id", JVal.str user_id),
   ("metadata", JVal.obj (mem0_add_metadata project_id now metadata))]

/-- Python truthiness of an optional string: `None` and `""` are falsy. -/
def truthy : Option String → Bool
  | none => false
  | some s => s ≠ ""

/-- The query parameters built by `mem0_get_all`: only `{"user_id": user_id}`;
the `project_id` argument is never used. -/
def mem0_get_all_request (user_id : String) (_project_id : Option String) :
    List (String × String) :=
  [("user_id", user_id)]

/-- The request body built by `mem0_search`: `{"query": query, "limit": limit}`,
plus `user_id` if truthy, plus `{"filters": {"project_id": p}}` if truthy. -/
def mem0_search_params (query : String) (user_id project_id : Option String)
    (limit : Int) : JObj :=
  let base : JObj := [("query", JVal.str query), ("limit", JVal.num limit)]
  let base : JObj :=
    match user_id with
    | some u => if u ≠ "" then base ++ [("user_id", JVal.str u)] else base
    | none => base
  match project_id with
  | some p => if p ≠ "" then base ++ [("filters", JVal.obj [("project_id", JVal.str p)])] else base
  | none => base

/-- A parsed JSON response from the Mem0 backend. -/
abbrev Mem0Resp := List (String × JVal)

/-- The `SessionStart` request model: `user_id`, optional `project_id`
(defaulting to "default" is the caller's concern here), optional `query`. -/
structure SessionStartReq where
  user_id : String
  project_id : Option String
  query : Option String

/-- The `SessionEnd` request model. -/
structure SessionEndReq where
  user_id : String
  project_id : String
  transcript : Str

/-- One outbound Gateway call recorded while a workflow runs. -/
inductive GatewayCall where
  | getAll : List (String × String) → GatewayCall
  | search : JObj → GatewayCall

/-- The arguments `session_end` passes to `mem0_add` for one call. -/
structure AddCall where
  content : Str
  user_id : String
  project_id : String
  metadata : JObj

/-- One entry of `memories_captured`: the signal and `result.get("id")`. -/
structure CaptureResult where
  signal : Str
  memory_id : Option JVal

/-- The success body returned by the `/session/end` handler. -/
structure EndResponse where
  signals_detected : List Str
  memories_captured : List CaptureResult

/-- The success body returned by the `/session/start` handler. -/
structure StartResponse where
  user_id : String
  project_id : Option String
  memories_count : Nat
  recent : List JVal
  relevant : List JVal

/-- The per-signal `mem0_add` call issued by `session_end`: excerpt via
`extract_signal_context` (default window 200), metadata
`{"signal": signal, "source": "auto-capture"}`. -/
def mkSignalCall (req : SessionEndReq) (signal : Str) : AddCall :=
  { content := extract_signal_context req.transcript signal 200
    user_id := req.user_id
    project_id := req.project_id
    metadata := [("signal", JVal.str (String.mk signal)), ("source", JVal.str "auto-capture")] }

/-- The full-transcript `mem0_add` call issued by `session_end`:
`"Session transcript:\n" + transcript[:5000]`, metadata
`{"source": "session-end", "full_transcript": True}`. -/
def mkTranscriptCall (req : SessionEndReq) : AddCall :=
  { content := "Session transcript:\n".toList ++ req.transcript.take 5000
    user_id := req.user_id
    project_id := req.project_id
    metadata := [("source", JVal.str "session-end"), ("full_transcript", JVal.bool true)] }

/-- The per-signal loop of `session_end`.  `gw` maps the index of an add
call to the backend outcome; a raised error aborts the loop after the
failing call.  Returns the calls attempted and either the error or the
capture results together with the next call index. -/
def processSignals (req : SessionEndReq) (gw : Nat → Except String Mem0Resp) :
    List Str → Nat → List AddCall × Except String (List CaptureResult × Nat)
  | [], idx => ([], Except.ok ([], idx))
  | signal :: rest, idx =>
    let call := mkSignalCall req signal
    match gw idx with
    | Except.error e => ([call], Except.error e)
    | Except.ok resp =>
      let next := processSignals req gw rest (idx + 1)
      (call :: next.1,
       next.2.map (fun p => ({ signal := signal, memory_id := dictGet resp "id" } :: p.1, p.2)))

/-- The `/session/end` workflow: detect signals, issue one `mem0_add` per
signal sequentially, then persist the truncated transcript when it is
longer than 100 characters.  The first Gateway failure aborts the workflow
and the handler reports a single error (HTTP 500). -/
def session_end (keywords : List Str) (req : SessionEndReq)
    (gw : Nat → Except String Mem0Resp) : List AddCall × Except String EndResponse :=
  let signals := detect_signals keywords req.transcript
  let run := processSignals req gw signals 0
  match run.2 with
  | Except.error e => (run.1, Except.error e)
  | Except.ok p =>
    if req.transcript.length > 100 then
      match gw p.2 with
      | Except.error e => (run.1 ++ [mkTranscriptCall req], Except.error e)
      | Except.ok _ =>
        (run.1 ++ [mkTranscriptCall req],
         Except.ok { signals_detected := signals, memories_captured := p.1 })
    else
      (run.1, Except.ok { signals_detected := signals, memories_captured := p.1 })

/-- The `/session/start` workflow on its success path: fetch all memories
for the user, optionally search with `limit=5` when a truthy query hint is
present, and assemble the context bundle.  `listResults` and
`searchResults` are the `results` arrays of the two backend responses. -/
def session_start (req : SessionStartReq) (listResults searchResults : List JVal) :
    List GatewayCall × StartResponse :=
  let getAllCall := GatewayCall.getAll (mem0_get_all_request req.user_id req.project_id)
  if truthy req.query then
    ([getAllCall,
      GatewayCall.search
        (mem0_search_params (req.query.getD "") (some req.user_id) req.project_id 5)],
     { user_id := req.user_id
       project_id := req.project_id
       memories_count := listResults.length
       recent := listResults.take 10
       relevant := searchResults })
  else
    ([getAllCall],
     { user_id := req.user_id
       project_id := req.project_id
       memories_count := listResults.length
       recent := listResults.take 10
       relevant := [] })

/-! ### Substring-test infrastructure -/

theorem containsSub_iff (hay needle : Str) :
    containsSub hay needle = true ↔ needle <:+: hay := by
  unfold containsSub
  rw [List.any_eq_true]
  constructor
  · rintro ⟨i, -, hp⟩
    rw [List.isPrefixOf_iff_prefix] at hp
    exact List.infix_iff_prefix_suffix.mpr ⟨hay.drop i, hp, List.drop_suffix i hay⟩
  · rintro ⟨s, t, hst⟩
    refine ⟨s.length, List.mem_range.mpr ?_, ?_⟩
    · subst hst; simp [List.length_append]; omega
    · rw [List.isPrefixOf_iff_prefix]
      subst hst
      rw [List.append_assoc, List.drop_left]
      exact List.prefix_append needle t

theorem strFind_some (hay needle : Str) (pos : Nat)
    (h : strFind hay needle = some pos) :
    needle <+: hay.drop pos ∧ pos + needle.length ≤ hay.length := by
  have hp := List.find?_some h
  rw [List.isPrefixOf_iff_prefix] at hp
  have hmem := List.mem_of_find?_eq_some h
  rw [List.mem_range] at hmem
  have hlen := hp.length_le
  rw [List.length_drop] at hlen
  exact ⟨hp, by omega⟩

theorem strFind_none_iff (hay needle : Str) :
    strFind hay needle = none ↔ ¬ needle <:+: hay := by
  unfold strFind
  rw [List.find?_eq_none]
  constructor
  · intro h hinf
    rcases hinf with ⟨s, t, hst⟩
    refine h s.length (List.mem_range.mpr ?_) ?_
    · subst hst; simp [List.length_append]; omega
    · rw [List.isPrefixOf_iff_prefix]
      subst hst
      rw [List.append_assoc, List.drop_left]
      exact List.prefix_append needle t
  · intro h i _ hp
    rw [List.isPrefixOf_iff_prefix] at hp
    exact h (List.infix_iff_prefix_suffix.mpr ⟨hay.drop i, hp, List.drop_suffix i hay⟩)

/-! ### Signal detection: C1 and C9 -/

theorem detect_signals_eq_filter (T : List Str) (X : Str)
    (htrim : ∀ t ∈ T, stripL t = t) :
    detect_signals T X = T.filter (fun t => occursCI t X) := by
  induction T with
  | nil => rfl
  | cons kw rest ih =>
    have hkw : stripL kw = kw := htrim kw (by simp)
    have hrest : ∀ t ∈ rest, stripL t = t := fun t ht => htrim t (by simp [ht])
    simp only [detect_signals, List.filter_cons, hkw]
    have hocc : containsSub (lowerL X) (lowerL kw) = occursCI kw X := rfl
    rw [hocc]
    by_cases h : occursCI kw X
    · simp [h, ih hrest]
    · simp [h, ih hrest]

/-- C1: for a trigger list with distinct, whitespace-trimmed entries (the
TriggerSet invariant), `detect` returns a subsequence of the trigger list
(hence a duplicate-free subset in configuration order), and a trigger is in
the result iff it occurs case-insensitively as a substring of the text. -/
theorem detect_signals_spec (T : List Str) (X : Str)
    (hnodup : T.Nodup) (htrim : ∀ t ∈ T, stripL t = t) :
    List.Sublist (detect_signals T X) T
  ∧ (detect_signals T X).Nodup
  ∧ ∀ t ∈ T, (t ∈ detect_signals T X ↔ occursCI t X = true) := by
  rw [detect_signals_eq_filter T X htrim]
  refine ⟨List.filter_sublist T, hnodup.filter _, ?_⟩
  intro t ht
  rw [List.mem_filter]
  exact ⟨fun h => h.2, fun h => ⟨ht, h⟩⟩

/-- Witness for C1 at triggers `["remember", "decided"]` and the text
`"We DECIDED to keep Postgres"`. -/
theorem detect_signals_spec_witness :
    List.Sublist
      (detect_signals ["remember".toList, "decided".toList] "We DECIDED to keep Postgres".toList)
      ["remember".toList, "decided".toList]
  ∧ (detect_signals ["remember".toList, "decided".toList] "We DECIDED to keep Postgres".toList).Nodup
  ∧ ∀ t ∈ ["remember".toList, "decided".toList],
      (t ∈ detect_signals ["remember".toList, "decided".toList] "We DECIDED to keep Postgres".toList
        ↔ occursCI t "We DECIDED to keep Postgres".toList = true) :=
  detect_signals_spec _ _ (by decide) (by decide)

/-- C9 counterexample: the trigger list `[" "]` is non-empty, yet
`detect("", [" "])` is `[""]`, not `[]` — a trigger that strips to the
empty string matches every text, including the empty one. -/
theorem detect_signals_empty_cex :
    detect_signals [" ".toList] ([] : Str) ≠ [] := by decide

/-- C9 (amended): for every trigger list whose entries are non-empty after
trimming, detection over the empty text returns the empty list, and
detection with an empty trigger list returns the empty list for any text;
empty text yields an empty result, not an error. -/
theorem detect_signals_empty (T : List Str) (X : Str)
    (h : ∀ t ∈ T, stripL t ≠ []) :
    detect_signals T ([] : Str) = [] ∧ detect_signals [] X = [] := by
  refine ⟨?_, rfl⟩
  induction T with
  | nil => rfl
  | cons kw rest ih =>
    have hkw : stripL kw ≠ [] := h kw (by simp)
    have hrest : ∀ t ∈ rest, stripL t ≠ [] := fun t ht => h t (by simp [ht])
    simp only [detect_signals]
    have hc : containsSub (lowerL ([] : Str)) (lowerL (stripL kw)) = false := by
      rw [Bool.eq_false_iff]
      intro hcon
      have := (containsSub_iff _ _).mp hcon
      rw [show lowerL ([] : Str) = [] from rfl, List.infix_nil] at this
      exact hkw (by simpa [lowerL] using this)
    rw [hc]
    simp only [Bool.false_eq_true, if_false]
    exact ih hrest

/-- Witness for C9 (amended) at triggers `["remember"]`. -/
theorem detect_signals_empty_witness :
    detect_signals ["remember".toList] ([] : Str) = []
  ∧ detect_signals [] "anything".toList = [] :=
  detect_signals_empty _ _ (by decide)

/-! ### Session start: C5, C8, C10 -/

/-- C8: every successful `start()` reports `memories_count` as the total
number of records the listAll call returned (even beyond 10), and `recent`
is exactly the first 10 of those records in backend order. -/
theorem session_start_recent (req : SessionStartReq) (r s : List JVal) :
    (session_start req r s).2.memories_count = r.length
  ∧ (session_start req r s).2.recent = r.take 10 := by
  unfold session_start
  by_cases h : truthy req.query <;> simp [h]

/-- C5 counterexample: with a query present, `relevant` is the backend's
search-response results verbatim; a backend response carrying 6 records
yields `relevant` of length 6, refuting the claimed bound of 5 over every
possible backend response. -/
theorem session_start_relevant_cex :
    ¬ ((session_start ⟨"u", some "p", some "q"⟩ []
          (List.replicate 6 (JVal.str "m"))).2.relevant.length ≤ 5) := by decide

/-- C5 (amended): `start()` without a truthy query issues exactly one
Gateway call (listAll) and returns `relevant = []`; with a truthy query it
issues exactly two calls (listAll then search, the search request carrying
`limit = 5`), and `relevant` is the backend's search results verbatim —
bounded by 5 only when the backend honors the requested limit; `recent`
has length at most 10 for every backend response. -/
theorem session_start_calls (req : SessionStartReq) (r s : List JVal) :
    (truthy req.query = false →
      (session_start req r s).1
          = [GatewayCall.getAll (mem0_get_all_request req.user_id req.project_id)]
        ∧ (session_start req r s).2.relevant = [])
  ∧ (truthy req.query = true →
      (session_start req r s).1
          = [GatewayCall.getAll (mem0_get_all_request req.user_id req.project_id),
             GatewayCall.search
               (mem0_search_params (req.query.getD "") (some req.user_id) req.project_id 5)]
        ∧ (session_start req r s).2.relevant = s)
  ∧ (session_start req r s).2.recent.length ≤ 10 := by
  refine ⟨fun h => ?_, fun h => ?_, ?_⟩
  · unfold session_start; simp [h]
  · unfold session_start; simp [h]
  · unfold session_start
    by_cases h : truthy req.query <;> simp [h, List.length_take]

/-- Witness for C5 (amended) at a request with query hint `"q"`. -/
theorem session_start_calls_witness :
    ((session_start ⟨"u", some "p", some "q"⟩ [] []).1
        = [GatewayCall.getAll (mem0_get_all_request "u" (some "p")),
           GatewayCall.search (mem0_search_params "q" (some "u") (some "p") 5)]
      ∧ (session_start ⟨"u", some "p", some "q"⟩ [] []).2.relevant = [])
  ∧ (session_start ⟨"u", some "p", some "q"⟩ [] []).2.recent.length ≤ 10 :=
  ⟨(session_start_calls _ _ _).2.1 (by decide), (session_start_calls _ _ _).2.2⟩

/-- C10: `mem0_get_all` sends only the user identifier — the outbound
request is identical for any two project identifiers, and consequently the
listAll call `start()` issues (the first Gateway call) is the same
whatever project is requested. -/
theorem mem0_get_all_ignores_project (u : String) (p1 p2 q : Option String)
    (r s : List JVal) :
    mem0_get_all_request u p1 = mem0_get_all_request u p2
  ∧ (session_start ⟨u, p1, q⟩ r s).1.head? = (session_start ⟨u, p2, q⟩ r s).1.head? := by
  refine ⟨rfl, ?_⟩
  unfold session_start
  by_cases h : truthy q <;> simp [h, mem0_get_all_request]

/-! ### Session end: C2 and C7 -/

theorem processSignals_ok (req : SessionEndReq) (g : Nat → Mem0Resp)
    (sigs : List Str) (idx : Nat) :
    processSignals req (fun i => Except.ok (g i)) sigs idx
      = (sigs.map (mkSignalCall req),
         Except.ok
           ((sigs.enumFrom idx).map
              (fun p => { signal := p.2, memory_id := dictGet (g p.1) "id" }),
            idx + sigs.length)) := by
  induction sigs generalizing idx with
  | nil => simp [processSignals]
  | cons s rest ih =>
    simp only [processSignals, ih (idx + 1), Except.map, List.enumFrom, List.map_cons,
      List.map, List.length_cons]
    refine Prod.ext rfl ?_
    simp only [Except.ok.injEq]
    refine Prod.ext rfl ?_
    simp
    omega

/-- C2: in a session-end call that detects three signals, a Gateway failure
on the second per-signal add aborts the workflow: exactly the first two
add calls are attempted (the third signal's add and the full-transcript add
never happen) and the handler reports the single error with no partial
capture results. -/
theorem session_end_abort (keywords : List Str) (req : SessionEndReq)
    (gw : Nat → Except String Mem0Resp) (s1 s2 s3 : Str) (r0 : Mem0Resp) (e : String)
    (hdet : detect_signals keywords req.transcript = [s1, s2, s3])
    (h0 : gw 0 = Except.ok r0) (h1 : gw 1 = Except.error e) :
    (session_end keywords req gw).1 = [mkSignalCall req s1, mkSignalCall req s2]
  ∧ (session_end keywords req gw).2 = Except.error e := by
  unfold session_end
  rw [hdet]
  simp [processSignals, h0, h1, Except.map]

/-- Witness for C2: triggers `["alpha","beta","gamma"]`, a transcript of
length over 100 containing all three, and a fake Gateway whose second call
raises. -/
theorem session_end_abort_witness :
    (session_end ["alpha".toList, "beta".toList, "gamma".toList]
        ⟨"u", "p", ("alpha beta gamma ".toList ++ List.replicate 100 'x')⟩
        (fun i => if i = 0 then Except.ok [] else Except.error "boom")).1
      = [mkSignalCall ⟨"u", "p", ("alpha beta gamma ".toList ++ List.replicate 100 'x')⟩ "alpha".toList,
         mkSignalCall ⟨"u", "p", ("alpha beta gamma ".toList ++ List.replicate 100 'x')⟩ "beta".toList]
  ∧ (session_end ["alpha".toList, "beta".toList, "gamma".toList]
        ⟨"u", "p", ("alpha beta gamma ".toList ++ List.replicate 100 'x')⟩
        (fun i => if i = 0 then Except.ok [] else Except.error "boom")).2
      = Except.error "boom" :=
  session_end_abort ["alpha".toList, "beta".toList, "gamma".toList]
    ⟨"u", "p", ("alpha beta gamma ".toList ++ List.replicate 100 'x')⟩
    (fun i => if i = 0 then Except.ok [] else Except.error "boom")
    "alpha".toList "beta".toList "gamma".toList [] "boom" (by decide) rfl rfl

/-- C7: with an always-succeeding Gateway, `end()` issues exactly one add
call per detected signal, sequentially in trigger-configuration order and
tagged `{signal, source: "auto-capture"}`, plus one full-transcript add
(first 5000 characters, tagged `{source: "session-end", full_transcript:
true}`) iff the transcript is longer than 100 characters; in particular a
length-50 transcript with no matching triggers issues zero Gateway calls
and returns empty signal and capture lists. -/
theorem session_end_calls (keywords : List Str) (req : SessionEndReq) (g : Nat → Mem0Resp) :
    (session_end keywords req (fun i => Except.ok (g i))).1
      = (detect_signals keywords req.transcript).map (mkSignalCall req)
        ++ (if req.transcript.length > 100 then [mkTranscriptCall req] else [])
  ∧ (session_end keywords req (fun i => Except.ok (g i))).2
      = Except.ok
          { signals_detected := detect_signals keywords req.transcript,
            memories_captured :=
              ((detect_signals keywords req.transcript).enum).map
                (fun p => { signal := p.2, memory_id := dictGet (g p.1) "id" }) }
  ∧ ((req.transcript.length = 50 ∧ detect_signals keywords req.transcript = []) →
      (session_end keywords req (fun i => Except.ok (g i))).1 = []
      ∧ (session_end keywords req (fun i => Except.ok (g i))).2
          = Except.ok { signals_detected := [], memories_captured := [] }) := by
  have hrun := processSignals_ok req g (detect_signals keywords req.transcript) 0
  have hmain :
      (session_end keywords req (fun i => Except.ok (g i))).1
        = (detect_signals keywords req.transcript).map (mkSignalCall req)
          ++ (if req.transcript.length > 100 then [mkTranscriptCall req] else [])
    ∧ (session_end keywords req (fun i => Except.ok (g i))).2
        = Except.ok
            { signals_detected := detect_signals keywords req.transcript,
              memories_captured :=
                ((detect_signals keywords req.transcript).enum).map
                  (fun p => { signal := p.2, memory_id := dictGet (g p.1) "id" }) } := by
    unfold session_end
    by_cases hlen : req.transcript.length > 100 <;>
      simp [hrun, hlen, List.enum_eq_enumFrom]
  refine ⟨hmain.1, hmain.2, fun h => ?_⟩
  have hlen : ¬ (req.transcript.length > 100) := by omega
  rw [hmain.1, hmain.2, h.2]
  simp [hlen]

/-- Witness for C7: a 50-character transcript with no matching triggers
issues zero Gateway calls and returns empty lists. -/
theorem session_end_calls_witness :
    (session_end ["remember".toList, "decided".toList]
        ⟨"u", "p", List.replicate 50 'x'⟩ (fun _ => Except.ok [])).1 = []
  ∧ (session_end ["remember".toList, "decided".toList]
        ⟨"u", "p", List.replicate 50 'x'⟩ (fun _ => Except.ok [])).2
      = Except.ok { signals_detected := [], memories_captured := [] } :=
  (session_end_calls ["remember".toList, "decided".toList]
      ⟨"u", "p", List.replicate 50 'x'⟩ (fun _ => [])).2.2 ⟨by decide, by decide⟩

/-! ### Dict-merge semantics: C3 and C4 -/

theorem dictGet_nil (k : String) : dictGet [] k = none := rfl

theorem dictGet_cons (p : String × JVal) (d : JObj) (k : String) :
    dictGet (p :: d) k = if p.1 = k then some p.2 else dictGet d k := by
  by_cases h : p.1 = k
  · rw [dictGet, List.find?_cons_of_pos _ (by simp [h]), if_pos h]
    rfl
  · rw [dictGet, List.find?_cons_of_neg _ (by simp [h]), if_neg h]
    rfl

theorem dictGet_replace_ne (d : JObj) (k0 : String) (v0 : JVal) (k : String)
    (h : k ≠ k0) :
    dictGet (d.map (fun p => if p.1 = k0 then (k0, v0) else p)) k = dictGet d k := by
  induction d with
  | nil => rfl
  | cons p d' ih =>
    by_cases hp : p.1 = k0
    · have h1 : ¬ (k0 = k) := fun hc => h hc.symm
      have h2 : ¬ (p.1 = k) := by rw [hp]; exact h1
      simp [hp, dictGet_cons, h1, h2, ih]
    · by_cases hk : p.1 = k <;> simp [hp, hk, dictGet_cons, ih, h]

theorem dictGet_dictSet (d : JObj) (k0 : String) (v0 : JVal) (k : String) :
    dictGet (dictSet d (k0, v0)) k = if k = k0 then some v0 else dictGet d k := by
  induction d with
  | nil =>
    by_cases h : k = k0
    · subst h; simp [dictSet, dictGet_cons]
    · have h' : ¬ (k0 = k) := fun hc => h hc.symm
      simp [dictSet, dictGet_cons, h, h']
  | cons p d' ih =>
    by_cases hp : p.1 = k0
    · by_cases hk : k = k0
      · subst hk
        simp [dictSet, hp, dictGet_cons]
      · have h1 : ¬ (k0 = k) := fun hc => hk hc.symm
        have h2 : ¬ (p.1 = k) := by rw [hp]; exact h1
        simp [dictSet, hp, dictGet_cons, h1, h2, hk, dictGet_replace_ne d' k0 v0 k hk]
    · have hstep : dictSet (p :: d') (k0, v0) = p :: dictSet d' (k0, v0) := by
        by_cases hA : (d'.any fun q => q.1 == k0) = true
        · simp [dictSet, hp, hA]
        · simp [dictSet, hp, hA]
      rw [hstep]
      by_cases hk : p.1 = k
      · have hkk0 : ¬ (k = k0) := fun hc => hp (hk.trans hc)
        simp [dictGet_cons, hk, hkk0]
      · simp [dictGet_cons, hk, ih]

theorem lookupLast_cons (p : String × JVal) (m : JObj) (k : String) :
    lookupLast (p :: m) k
      = match lookupLast m k with
        | some v => some v
        | none => if p.1 = k then some p.2 else none := by
  unfold lookupLast
  rw [List.reverse_cons, List.find?_append]
  cases h : List.find? (fun q => q.1 == k) m.reverse with
  | none =>
    simp only [h, Option.map_none, Option.none_or]
    by_cases hk : p.1 = k <;> simp [List.find?_cons, hk]
  | some q => simp [h]

theorem dictGet_foldl_dictSet (m : JObj) (d : JObj) (k : String) :
    dictGet (m.foldl dictSet d) k
      = match lookupLast m k with
        | some v => some v
        | none => dictGet d k := by
  induction m generalizing d with
  | nil => simp [lookupLast]
  | cons p m' ih =>
    rw [List.foldl_cons, ih, lookupLast_cons]
    cases h : lookupLast m' k with
    | some v => rfl
    | none =>
      simp only []
      rw [show dictSet d p = dictSet d (p.1, p.2) from rfl, dictGet_dictSet]
      by_cases hk : k = p.1
      · rw [if_pos hk, if_pos hk.symm]
      · rw [if_neg hk, if_neg (fun hc => hk hc.symm)]

theorem mem0_add_metadata_has_captured (pid now : String) (m : JObj) :
    ∃ v, dictGet (mem0_add_metadata pid now m) "captured_at" = some v := by
  unfold mem0_add_metadata
  rw [dictGet_foldl_dictSet m _ "captured_at"]
  cases h : lookupLast m "captured_at" with
  | some v => exact ⟨v, rfl⟩
  | none => exact ⟨JVal.str now, rfl⟩

/-- C3 counterexample: the caller-supplied metadata is spliced after the
gateway entries (`**metadata` comes last in the dict literal), so a caller
supplying `captured_at` overrides the gateway's fresh timestamp: with fresh
timestamp `"t1"` and caller value `"t0"`, the payload carries `"t0"`. -/
theorem mem0_add_metadata_cex :
    dictGet (mem0_add_metadata "p" "t1" [("captured_at", JVal.str "t0")]) "captured_at"
      ≠ some (JVal.str "t1") := by
  intro h
  have h0 : dictGet (mem0_add_metadata "p" "t1" [("captured_at", JVal.str "t0")]) "captured_at"
      = some (JVal.str "t0") := rfl
  rw [h0] at h
  have h1 := Option.some.inj h
  have h2 : "t0" = "t1" := by injection h1
  exact absurd h2 (by decide)

/-- C3 (amended): the metadata of every add payload contains a
`captured_at` key; on every key collision the caller's value takes
precedence, including for `captured_at` — the gateway's fresh timestamp
(and its `project_id`) are only defaults used when the caller does not
supply that key. -/
theorem mem0_add_metadata_spec (pid now : String) (m : JObj) :
    (∃ v, dictGet (mem0_add_metadata pid now m) "captured_at" = some v)
  ∧ (∀ k v, lookupLast m k = some v → dictGet (mem0_add_metadata pid now m) k = some v)
  ∧ (lookupLast m "captured_at" = none →
      dictGet (mem0_add_metadata pid now m) "captured_at" = some (JVal.str now))
  ∧ (lookupLast m "project_id" = none →
      dictGet (mem0_add_metadata pid now m) "project_id" = some (JVal.str pid)) := by
  have hbase : ∀ k, dictGet (mem0_add_metadata pid now m) k
      = match lookupLast m k with
        | some v => some v
        | none => dictGet [("project_id", JVal.str pid), ("captured_at", JVal.str now)] k :=
    fun k => dictGet_foldl_dictSet m _ k
  refine ⟨mem0_add_metadata_has_captured pid now m, ?_, ?_, ?_⟩
  · intro k v hv
    rw [hbase, hv]
  · intro h
    rw [hbase, h]
    rfl
  · intro h
    rw [hbase, h]
    rfl

/-- Witness for C3 (amended) at caller metadata `{"scope": "user-private"}`. -/
theorem mem0_add_metadata_spec_witness :
    dictGet (mem0_add_metadata "p" "t" [("scope", JVal.str "user-private")]) "captured_at"
        = some (JVal.str "t")
  ∧ dictGet (mem0_add_metadata "p" "t" [("scope", JVal.str "user-private")]) "scope"
        = some (JVal.str "user-private")
  ∧ dictGet (mem0_add_metadata "p" "t" [("scope", JVal.str "user-private")]) "project_id"
        = some (JVal.str "p") :=
  ⟨(mem0_add_metadata_spec "p" "t" _).2.2.1 rfl,
   (mem0_add_metadata_spec "p" "t" _).2.1 "scope" (JVal.str "user-private") rfl,
   (mem0_add_metadata_spec "p" "t" _).2.2.2 rfl⟩

/-- C4 counterexample: the outbound add payload has no top-level
`content` field — the content is nested inside `messages`, the owner key
is `user_id`, and `project_id` lives inside `metadata`, so the claimed
shape `{content, owner_id, project_id, metadata}` is wrong. -/
theorem mem0_add_payload_cex :
    ¬ ("content" ∈ (mem0_add_payload "c" "u" "p" "t" []).map Prod.fst) := by decide

/-- C4 (amended): every add payload has exactly the top-level shape
`{messages, user_id, metadata}`, where `messages` wraps the content as a
single user message, the project identifier is carried inside `metadata`,
and the metadata always contains a `captured_at` key. -/
theorem mem0_add_payload_spec (c u pid now : String) (m : JObj) :
    (mem0_add_payload c u pid now m).map Prod.fst = ["messages", "user_id", "metadata"]
  ∧ dictGet (mem0_add_payload c u pid now m) "messages"
      = some (JVal.arr [JVal.obj [("role", JVal.str "user"), ("content", JVal.str c)]])
  ∧ dictGet (mem0_add_payload c u pid now m) "user_id" = some (JVal.str u)
  ∧ dictGet (mem0_add_payload c u pid now m) "metadata"
      = some (JVal.obj (mem0_add_metadata pid now m))
  ∧ ∃ v, dictGet (mem0_add_metadata pid now m) "captured_at" = some v :=
  ⟨rfl, rfl, rfl, rfl, mem0_add_metadata_has_captured pid now m⟩

/-! ### Character-level facts about lowercasing and whitespace -/

theorem char_eq_of_toNat_eq {c d : Char} (h : c.toNat = d.toNat) : c = d :=
  Char.ext (UInt32.toNat.inj h)

theorem char_toNat_ofNat_valid (n : Nat) (h : n.isValidChar) :
    (Char.ofNat n).toNat = n := by
  rw [Char.ofNat, dif_pos h]
  rfl

theorem wsp_iff (c : Char) :
    wsp c = true ↔ (c.toNat = 32 ∨ c.toNat = 9 ∨ c.toNat = 13 ∨ c.toNat = 10) := by
  unfold wsp
  simp only [Char.isWhitespace, Bool.or_eq_true, decide_eq_true_eq]
  constructor
  · rintro (((h | h) | h) | h) <;> subst h <;> decide
  · rintro (h | h | h | h)
    · exact Or.inl (Or.inl (Or.inl (char_eq_of_toNat_eq (by rw [h]; rfl))))
    · exact Or.inl (Or.inl (Or.inr (char_eq_of_toNat_eq (by rw [h]; rfl))))
    · exact Or.inl (Or.inr (char_eq_of_toNat_eq (by rw [h]; rfl)))
    · exact Or.inr (char_eq_of_toNat_eq (by rw [h]; rfl))

theorem wsp_toLower (c : Char) : wsp (Char.toLower c) = wsp c := by
  by_cases h : c.toNat ≥ 65 ∧ c.toNat ≤ 90
  · have hl : Char.toLower c = Char.ofNat (c.toNat + 32) := by
      simp only [Char.toLower]
      rw [if_pos h]
    have hv : (c.toNat + 32).isValidChar := Or.inl (by omega)
    have ht : (Char.toLower c).toNat = c.toNat + 32 := by
      rw [hl, char_toNat_ofNat_valid _ hv]
    have h1 : wsp (Char.toLower c) = false := by
      rw [Bool.eq_false_iff]
      intro hw
      rcases (wsp_iff _).mp hw with h' | h' | h' | h' <;> omega
    have h2 : wsp c = false := by
      rw [Bool.eq_false_iff]
      intro hw
      rcases (wsp_iff _).mp hw with h' | h' | h' | h' <;> omega
    rw [h1, h2]
  · have hl : Char.toLower c = c := by
      simp only [Char.toLower]
      rw [if_neg h]
    rw [hl]

theorem wsp_comp_toLower : wsp ∘ Char.toLower = wsp := funext wsp_toLower

/-! ### Strip / lowercase interaction -/

theorem lowerL_stripL (s : Str) : lowerL (stripL s) = stripL (lowerL s) := by
  unfold lowerL stripL
  rw [List.dropWhile_map, wsp_comp_toLower, ← List.map_reverse, List.dropWhile_map,
    wsp_comp_toLower, ← List.map_reverse]

theorem stripL_length_le (s : Str) : (stripL s).length ≤ s.length := by
  have h1 := (List.dropWhile_suffix (l := s) wsp).length_le
  have h2 := (List.dropWhile_suffix (l := (s.dropWhile wsp).reverse) wsp).length_le
  unfold stripL
  rw [List.length_reverse]
  rw [List.length_reverse] at h2
  omega

theorem stripL_eq_self_dropWhile (s : Str) (h : stripL s = s) :
    s.dropWhile wsp = s ∧ s.reverse.dropWhile wsp = s.reverse := by
  have h1 := (List.dropWhile_suffix (l := s) wsp).length_le
  have h2 := (List.dropWhile_suffix (l := (s.dropWhile wsp).reverse) wsp).length_le
  have hlen : (stripL s).length = s.length := by rw [h]
  unfold stripL at hlen
  rw [List.length_reverse] at hlen
  rw [List.length_reverse] at h2
  have e1 : s.dropWhile wsp = s :=
    (List.dropWhile_suffix wsp).eq_of_length (by omega)
  refine ⟨e1, ?_⟩
  have h' : ((s.dropWhile wsp).reverse.dropWhile wsp).reverse = s := h
  rw [e1] at h'
  have h'' := congrArg List.reverse h'
  rw [List.reverse_reverse] at h''
  exact h''

theorem head_not_wsp (p : Char → Bool) (c : Char) (t : Str)
    (h : (c :: t).dropWhile p = c :: t) : p c = false := by
  by_cases hc : p c
  · exfalso
    rw [List.dropWhile_cons, if_pos hc] at h
    have hlen := congrArg List.length h
    have hle := (List.dropWhile_suffix (l := t) p).length_le
    simp at hlen
    omega
  · simpa using hc

theorem infix_dropWhile_of_head (p : Char → Bool) (s m : Str)
    (hhead : ∀ c t, s = c :: t → p c = false)
    (h : s <:+: m) : s <:+: m.dropWhile p := by
  induction m with
  | nil => simpa using h
  | cons c m' ih =>
    rw [List.dropWhile_cons]
    by_cases hc : p c
    · rw [if_pos hc]
      rcases List.infix_cons_iff.mp h with hpre | hinf
      · cases s with
        | nil => exact List.nil_infix
        | cons a t =>
          rcases List.cons_prefix_cons.mp hpre with ⟨hac, -⟩
          have hfa := hhead a t rfl
          rw [hac] at hfa
          rw [hfa] at hc
          exact absurd hc (by simp)
      · exact ih hinf
    · rw [if_neg hc]
      exact h

theorem infix_stripL (s m : Str) (hs : stripL s = s) (h : s <:+: m) :
    s <:+: stripL m := by
  obtain ⟨h1, h2⟩ := stripL_eq_self_dropWhile s hs
  have hhead : ∀ c t, s = c :: t → wsp c = false := by
    intro c t hct
    exact head_not_wsp wsp c t (hct ▸ h1)
  have hA : s <:+: m.dropWhile wsp := infix_dropWhile_of_head wsp s m hhead h
  have hrev : s.reverse <:+: (m.dropWhile wsp).reverse := List.reverse_infix.mpr hA
  have hheadrev : ∀ c t, s.reverse = c :: t → wsp c = false := by
    intro c t hct
    exact head_not_wsp wsp c t (hct ▸ h2)
  have hB : s.reverse <:+: ((m.dropWhile wsp).reverse).dropWhile wsp :=
    infix_dropWhile_of_head wsp s.reverse _ hheadrev hrev
  have hC : s <:+: (((m.dropWhile wsp).reverse).dropWhile wsp).reverse := by
    rw [← List.reverse_infix, List.reverse_reverse]
    exact hB
  exact hC

/-! ### Context extraction: C6 -/

theorem extract_length_le (text signal : Str) (w : Nat) :
    (extract_signal_context text signal w).length ≤ w + signal.length := by
  unfold extract_signal_context
  cases hf : strFind (lowerL text) (lowerL signal) with
  | none =>
    exact Nat.le_trans (List.length_take_le w text) (Nat.le_add_right w _)
  | some pos =>
    show (stripL ((text.drop (pos - w / 2)).take
        (min text.length (pos + signal.length + w / 2) - (pos - w / 2)))).length
      ≤ w + signal.length
    refine Nat.le_trans (stripL_length_le _) (Nat.le_trans (List.length_take_le _ _) ?_)
    omega

theorem occursCI_nil_left (hay : Str) : occursCI ([] : Str) hay = true := by
  rw [occursCI]
  exact (containsSub_iff _ _).mpr List.nil_infix

theorem occursCI_extract (text signal : Str) (w : Nat)
    (hs : stripL signal = signal) (h : occursCI signal text = true) :
    occursCI signal (extract_signal_context text signal w) = true := by
  by_cases hnil : signal = []
  · subst hnil
    exact occursCI_nil_left _
  · have hinf : lowerL signal <:+: lowerL text := (containsSub_iff _ _).mp h
    cases hf : strFind (lowerL text) (lowerL signal) with
    | none => exact absurd hinf ((strFind_none_iff _ _).mp hf)
    | some pos =>
      obtain ⟨hpre, hposlen⟩ := strFind_some _ _ _ hf
      have hslen : (lowerL signal).length = signal.length := by simp [lowerL]
      have htlen : (lowerL text).length = text.length := by simp [lowerL]
      rw [hslen, htlen] at hposlen
      set start := pos - w / 2 with hstart
      set stop := min text.length (pos + signal.length + w / 2) with hstop
      have hstople : pos + signal.length ≤ stop := by rw [hstop]; omega
      have hstartle : start ≤ pos := by rw [hstart]; omega
      have hslice : extract_signal_context text signal w
          = stripL ((text.drop start).take (stop - start)) := by
        unfold extract_signal_context
        rw [hf]
      have hdrop : ((lowerL text).drop start).drop (pos - start) = (lowerL text).drop pos := by
        rw [List.drop_drop]
        congr 1
        omega
      have hpre2 : lowerL signal <+: ((lowerL text).drop start).drop (pos - start) := by
        rw [hdrop]
        exact hpre
      have earith : (pos - start) + ((stop - start) - (pos - start)) = stop - start := by
        omega
      have e := List.take_drop (pos - start) ((stop - start) - (pos - start))
        ((lowerL text).drop start)
      rw [earith] at e
      have hpre3 : lowerL signal
          <+: (((lowerL text).drop start).take (stop - start)).drop (pos - start) := by
        rw [← e]
        refine List.prefix_take_iff.mpr ⟨hpre2, ?_⟩
        rw [hslen]
        omega
      have hinfix_slice : lowerL signal <:+: ((lowerL text).drop start).take (stop - start) :=
        List.infix_iff_prefix_suffix.mpr ⟨_, hpre3, List.drop_suffix _ _⟩
      have hlower_slice : lowerL ((text.drop start).take (stop - start))
          = ((lowerL text).drop start).take (stop - start) := by
        simp [lowerL, List.map_take, List.map_drop]
      have hstrip_signal : stripL (lowerL signal) = lowerL signal := by
        rw [← lowerL_stripL, hs]
      have hmain : lowerL signal <:+: stripL (lowerL ((text.drop start).take (stop - start))) := by
        rw [hlower_slice]
        exact infix_stripL _ _ hstrip_signal hinfix_slice
      rw [hslice, occursCI]
      apply (containsSub_iff _ _).mpr
      rw [lowerL_stripL]
      exact hmain

theorem extract_not_found (text signal : Str) (w : Nat)
    (h : occursCI signal text = false) :
    extract_signal_context text signal w = text.take w := by
  unfold extract_signal_context
  cases hf : strFind (lowerL text) (lowerL signal) with
  | none => rfl
  | some pos =>
    exfalso
    obtain ⟨hpre, -⟩ := strFind_some _ _ _ hf
    have hinf : lowerL signal <:+: lowerL text :=
      List.infix_iff_prefix_suffix.mpr ⟨_, hpre, List.drop_suffix _ _⟩
    rw [occursCI] at h
    rw [(containsSub_iff _ _).mpr hinf] at h
    exact absurd h (by simp)

/-- C6 counterexample: for a signal with boundary whitespace the final
`strip()` can destroy the occurrence: `" remember "` occurs in the text
`" remember "`, but `extract` returns `"remember"`, which does not contain
it. -/
theorem extract_signal_context_cex :
    occursCI " remember ".toList " remember ".toList = true
  ∧ extract_signal_context " remember ".toList " remember ".toList 200 = "remember".toList
  ∧ occursCI " remember ".toList
      (extract_signal_context " remember ".toList " remember ".toList 200) = false := by
  refine ⟨by decide, by decide, by decide⟩

/-- C6 (amended): for every text `X`, signal `s` and window `w`, the
extracted excerpt has length at most `w + length s`; when `s` does not
occur case-insensitively the result is the first `w` characters of `X`;
and when `s` occurs and carries no leading/trailing whitespace (as every
trimmed trigger does), the excerpt contains a case-insensitive occurrence
of `s`. -/
theorem extract_signal_context_spec (X s : Str) (w : Nat) :
    (extract_signal_context X s w).length ≤ w + s.length
  ∧ (stripL s = s → occursCI s X = true →
      occursCI s (extract_signal_context X s w) = true)
  ∧ (occursCI s X = false → extract_signal_context X s w = X.take w) :=
  ⟨extract_length_le X s w,
   fun hs h => occursCI_extract X s w hs h,
   fun h => extract_not_found X s w h⟩

/-- Witness for C6 (amended) at `X = "abc"`, `s = "a"`, `w = 200`,
including the boundary-clamping example `extract("abc", "a", 200) = "abc"`. -/
theorem extract_signal_context_spec_witness :
    (extract_signal_context "abc".toList "a".toList 200).length ≤ 200 + "a".toList.length
  ∧ occursCI "a".toList (extract_signal_context "abc".toList "a".toList 200) = true
  ∧ extract_signal_context "abc".toList "a".toList 200 = "abc".toList :=
  ⟨(extract_signal_context_spec "abc".toList "a".toList 200).1,
   (extract_signal_context_spec "abc".toList "a".toList 200).2.1 (by decide) (by decide),
   by decide⟩

end Recall
